import Mathlib

/-!
Verification development for the venegame locomotion and animation
retargeting core.  The definitions below are shallow embeddings of the
TypeScript sources: `ModelLoader` (`src/utils/modelLoader.ts` and the
unnamed sibling snapshot), `Character` (`src/components/Character.ts`) and
`HumanCharacter` (`src/components/HumanCharacter.ts`).  Numeric code that
only uses rational constants is embedded over `ℚ`; code that uses `π`,
trigonometry or square roots is embedded over `ℝ`.  JavaScript operations
that can throw (property access on `undefined`) are embedded in `Option`,
with `none` standing for a raised `TypeError`.
-/

namespace Venegame

/-! ## Strings as character lists: JS `split(".")` and `includes` -/

/-- JS `name.split(".")` on the character list of a string: splits at every
`'.'`, keeping empty chunks, and returns `[[]]` for the empty string (JS
returns `[""]`). -/
def splitDot : List Char → List (List Char)
  | [] => [[]]
  | c :: cs =>
    if c = '.' then [] :: splitDot cs
    else
      match splitDot cs with
      | [] => [[c]]
      | h :: t => (c :: h) :: t

/-- Bool test: `pat` occurs at the start of `l`. -/
def startsWith : List Char → List Char → Bool
  | [], _ => true
  | _ :: _, [] => false
  | p :: ps, x :: xs => p = x && startsWith ps xs

/-- JS `hay.includes(needle)`: `needle` occurs contiguously in `hay`. -/
def containsSub (hay needle : List Char) : Bool :=
  if startsWith needle hay then true
  else
    match hay with
    | [] => false
    | _ :: t => containsSub t needle

/-- First chunk of the dot-split of a string (the `boneName` of a track
name; JS destructuring `const [boneName, property] = track.name.split(".")`). -/
def boneOf (name : String) : String :=
  ⟨(splitDot name.data).headD []⟩

/-- Second chunk of the dot-split, when present (the `property`; JS yields
`undefined` when the name has no `'.'`). -/
def propOf (name : String) : Option String :=
  ((splitDot name.data)[1]?).map (⟨·⟩)

/-- `strIncludes s sub` is JS `s.includes(sub)`. -/
def strIncludes (s sub : String) : Bool :=
  containsSub s.data sub.data

/-! ## JS `Map` as an association list (insertion order, unique keys) -/

/-- `Map.set`: update the value in place when the key exists, append
otherwise. -/
def mapSet {α : Type} : List (String × α) → String → α → List (String × α)
  | [], k, v => [(k, v)]
  | (k', v') :: rest, k, v =>
    if k' = k then (k, v) :: rest else (k', v') :: mapSet rest k v

/-- `Map.get`: the value stored under the key, if any. -/
def mapGet {α : Type} : List (String × α) → String → Option α
  | [], _ => none
  | (k', v') :: rest, k => if k' = k then some v' else mapGet rest k

/-- `Map.delete`: remove the entry stored under the key. -/
def mapDel {α : Type} : List (String × α) → String → List (String × α)
  | [], _ => []
  | (k', v') :: rest, k =>
    if k' = k then mapDel rest k else (k', v') :: mapDel rest k

/-! ## `ModelLoader` bone tables (`src/utils/modelLoader.ts`) -/

/-- `ModelLoader.rootBoneNames`: bones whose position tracks are stripped to
prevent root motion. -/
def rootBoneNames : List String :=
  ["mixamorigHips", "Hips", "Root", "Character", "Armature"]

/-- The central bones of `generateBoneMapping` (mapped without a side
prefix, and skipped by the sided loop). -/
def centralBones : List String :=
  ["Hips", "Spine", "Spine1", "Spine2", "Neck", "Head"]

/-- The `boneNames` list of `generateBoneMapping` (names without the side
prefix). -/
def mappingBoneNames : List String :=
  ["Hips", "Spine", "Spine1", "Spine2", "Neck", "Head", "Shoulder", "Arm",
   "ForeArm", "Hand", "HandThumb1", "HandThumb2", "HandThumb3", "HandIndex1",
   "HandIndex2", "HandIndex3", "HandMiddle1", "HandMiddle2", "HandMiddle3",
   "HandRing1", "HandRing2", "HandRing3", "HandPinky1", "HandPinky2",
   "HandPinky3", "UpLeg", "Leg", "Foot", "ToeBase"]

/-- The `sides` list of `generateBoneMapping`. -/
def sides : List String := ["Left", "Right"]

/-- The ring-to-pinky override parts of `generateBoneMapping`. -/
def ringParts : List String := ["Ring1", "Ring2", "Ring3"]

/-- `ModelLoader.generateBoneMapping`: the mixamorig-to-standard bone name
map, built exactly as the source does — central bones first, then the
side-crossed bones (skipping central ones), then the ring-to-pinky
overrides, each insertion going through `Map.set`.  The unnamed snapshot
(`src/unnamed/part_001`) inlines the same finished table literally inside
`remapAnimationTracks`. -/
def generateBoneMapping : List (String × String) :=
  let m : List (String × String) := []
  let m := centralBones.foldl
    (fun m bone => mapSet m ("mixamorig" ++ bone) bone) m
  let m := sides.foldl
    (fun m side =>
      mappingBoneNames.foldl
        (fun m bone =>
          if bone ∈ centralBones then m
          else mapSet m ("mixamorig" ++ side ++ bone) (side ++ bone)) m) m
  sides.foldl
    (fun m side =>
      (ringParts.enum).foldl
        (fun m p =>
          mapSet m ("mixamorig" ++ side ++ "Hand" ++ p.2)
            (side ++ "HandPinky" ++ toString (p.1 + 1))) m) m

/-! ## Animation clips and `remapAnimationTracks` -/

/-- A keyframe track: the name (format `"boneName.property"`), the shared
time samples, the value samples, the interpolation mode and the concrete
track class (quaternion / vector / number / other). -/
structure Track where
  name : String
  times : List ℚ
  values : List ℚ
  interpolation : ℕ
  kind : ℕ
deriving DecidableEq, Repr

/-- An animation clip: name, duration, tracks. -/
structure Clip where
  name : String
  duration : ℚ
  tracks : List Track
deriving DecidableEq, Repr

/-- `ModelLoader.createNewTrack`: every branch builds a track of the same
class as the original with the given name, the original's `times` and a
copy of its `values` (the generic branch also passes the original's
interpolation, which the typed constructors inherit anyway). -/
def createNewTrack (trackName : String) (originalTrack : Track) : Track :=
  { originalTrack with name := trackName }

/-- `ModelLoader.isRootPositionTrack`:
`rootBoneNames.includes(boneName) && property.includes("position")`.
`none` models the `TypeError` JS raises when `boneName` is a root bone and
`property` is `undefined` (a track name with no `'.'`): `&&` short-circuits,
so the left operand being false avoids the access. -/
def isRootPositionTrack (boneName : String) (property : Option String) :
    Option Bool :=
  if boneName ∈ rootBoneNames then
    match property with
    | some p => some (strIncludes p "position")
    | none => none
  else some false

/-- A JS template literal prints `undefined` for an undefined value. -/
def propertyText : Option String → String
  | some p => p
  | none => "undefined"

/-- One iteration of the `for (const track of clip.tracks)` loop of
`ModelLoader.remapAnimationTracks`: `none` = the loop raised,
`some none` = the track was skipped (`continue`), `some (some t)` = `t`
was pushed onto the new clip. -/
def remapStep (track : Track) : Option (Option Track) :=
  let boneName := boneOf track.name
  let property := propOf track.name
  match isRootPositionTrack boneName property with
  | none => none
  | some true => some none
  | some false =>
    match mapGet generateBoneMapping boneName with
    | some mapped =>
      let newTrackName := mapped ++ "." ++ propertyText property
      some (some (createNewTrack newTrackName track))
    | none =>
      match isRootPositionTrack boneName property with
      | some true => some none
      | _ => some (some track)

/-- The track loop of `ModelLoader.remapAnimationTracks`, in order. -/
def remapTracks : List Track → Option (List Track)
  | [] => some []
  | t :: ts =>
    match remapStep t with
    | none => none
    | some none => remapTracks ts
    | some (some t') => (remapTracks ts).map (t' :: ·)

/-- `ModelLoader.remapAnimationTracks`: a new clip with the same name and
duration whose tracks are the remapped ones; `none` models a raised
`TypeError`. -/
def remapAnimationTracks (clip : Clip) : Option Clip :=
  (remapTracks clip.tracks).map
    (fun ts => { name := clip.name, duration := clip.duration, tracks := ts })

/-! ## Lemmas about `splitDot` and the bone mapping -/

theorem splitDot_ne_nil : ∀ s : List Char, splitDot s ≠ []
  | [] => by simp [splitDot]
  | c :: cs => by
    simp only [splitDot]
    split
    · simp
    · split <;> simp

theorem dot_not_mem_splitDot : ∀ s : List Char, ∀ l ∈ splitDot s, '.' ∉ l
  | [] => by simp [splitDot]
  | c :: cs => by
    have ih := dot_not_mem_splitDot cs
    simp only [splitDot]
    split
    · intro l hl
      rcases List.mem_cons.1 hl with h | h
      · subst h; simp
      · exact ih l h
    · rename_i hc
      split
      · rename_i hnil
        exact absurd hnil (splitDot_ne_nil cs)
      · rename_i h0 t0 hsd
        intro l hl
        rcases List.mem_cons.1 hl with h | h
        · subst h
          intro hmem
          rcases List.mem_cons.1 hmem with h | h
          · exact hc h.symm
          · exact ih h0 (hsd ▸ List.mem_cons_self h0 t0) h
        · exact ih l (hsd ▸ List.mem_cons_of_mem h0 h)

theorem splitDot_no_dot : ∀ s : List Char, '.' ∉ s → splitDot s = [s]
  | [], _ => by simp [splitDot]
  | c :: cs, h => by
    have hc : ¬c = '.' := fun hh => h (hh ▸ List.mem_cons_self c cs)
    have ih := splitDot_no_dot cs (fun hh => h (List.mem_cons_of_mem c hh))
    simp only [splitDot, if_neg hc, ih]

theorem splitDot_append : ∀ v p : List Char, '.' ∉ v →
    splitDot (v ++ '.' :: p) = v :: splitDot p
  | [], p, _ => by simp [splitDot]
  | c :: v', p, h => by
    have hc : ¬c = '.' := fun hh => h (hh ▸ List.mem_cons_self c v')
    have ih := splitDot_append v' p (fun hh => h (List.mem_cons_of_mem c hh))
    simp only [List.cons_append, splitDot, if_neg hc, List.append_eq, ih]

theorem boneOf_concat (v p : String) (hv : '.' ∉ v.data) :
    boneOf (v ++ "." ++ p) = v := by
  have hd : (v ++ "." ++ p).data = v.data ++ '.' :: p.data := by
    simp [String.data_append]
  rw [boneOf, hd, splitDot_append v.data p.data hv]
  rfl

theorem propOf_concat (v p : String) (hv : '.' ∉ v.data)
    (hp : '.' ∉ p.data) : propOf (v ++ "." ++ p) = some p := by
  have hd : (v ++ "." ++ p).data = v.data ++ '.' :: p.data := by
    simp [String.data_append]
  rw [propOf, hd, splitDot_append v.data p.data hv, splitDot_no_dot p.data hp]
  rfl

theorem propOf_no_dot {s p : String} (h : propOf s = some p) :
    '.' ∉ p.data := by
  rw [propOf] at h
  cases hg : (splitDot s.data)[1]? with
  | none => rw [hg] at h; simp at h
  | some l =>
    rw [hg] at h
    simp only [Option.map_some'] at h
    have hl : l ∈ splitDot s.data := List.getElem?_mem hg
    have := dot_not_mem_splitDot s.data l hl
    cases h
    exact this

theorem mapGet_mem {α : Type} :
    ∀ (m : List (String × α)) (k : String) (v : α),
      mapGet m k = some v → (k, v) ∈ m
  | [], k, v, h => by simp [mapGet] at h
  | (k', v') :: rest, k, v, h => by
    by_cases hk : k' = k
    · rw [mapGet, if_pos hk] at h
      cases h
      exact hk ▸ List.mem_cons_self _ _
    · rw [mapGet, if_neg hk] at h
      exact List.mem_cons_of_mem _ (mapGet_mem rest k v h)

/-- Every target name of the bone mapping is free of `'.'`. -/
theorem boneMapping_no_dot :
    ∀ p ∈ generateBoneMapping, '.' ∉ p.2.data := by decide

/-- The only entry of the bone mapping whose target is a root bone name is
`mixamorigHips ↦ Hips`, and its source is itself a root bone name. -/
theorem boneMapping_root_target :
    ∀ p ∈ generateBoneMapping, p.2 ∈ rootBoneNames → p.1 = "mixamorigHips" := by
  decide

/-- `true` iff the (optional) property chunk of a track name is a position
channel in the sense the code tests: `property.includes("position")`. -/
def positionProp : Option String → Bool
  | some p => strIncludes p "position"
  | none => false

theorem isRootPositionTrack_false_cases {b : String} {pr : Option String}
    (hb : b ∈ rootBoneNames) (h : isRootPositionTrack b pr = some false) :
    ∃ p, pr = some p ∧ strIncludes p "position" = false := by
  rw [isRootPositionTrack.eq_def, if_pos hb] at h
  cases pr with
  | none => simp at h
  | some p => exact ⟨p, rfl, by simpa using h⟩

theorem remapStep_emit {t t' : Track} (h : remapStep t = some (some t'))
    (hb : boneOf t'.name ∈ rootBoneNames) :
    positionProp (propOf t'.name) = false := by
  cases h1 : isRootPositionTrack (boneOf t.name) (propOf t.name) with
  | none => simp [remapStep, h1] at h
  | some b =>
    cases b with
    | true => simp [remapStep, h1] at h
    | false =>
      cases h2 : mapGet generateBoneMapping (boneOf t.name) with
      | some mapped =>
        simp only [remapStep, h1, h2, Option.some.injEq] at h
        subst h
        have hmem := mapGet_mem _ _ _ h2
        have hnd : '.' ∉ mapped.data := boneMapping_no_dot _ hmem
        rw [createNewTrack] at hb
        simp only at hb
        rw [boneOf_concat mapped (propertyText (propOf t.name)) hnd] at hb
        have hkey : boneOf t.name = "mixamorigHips" :=
          boneMapping_root_target _ hmem hb
        have hroot : boneOf t.name ∈ rootBoneNames := by
          rw [hkey]; decide
        obtain ⟨p, hp, hinc⟩ := isRootPositionTrack_false_cases hroot h1
        have hpnd : '.' ∉ p.data := propOf_no_dot hp
        show positionProp (propOf (Track.mk
          (mapped ++ "." ++ propertyText (propOf t.name))
          t.times t.values t.interpolation t.kind).name) = false
        simp only
        rw [hp, propertyText, propOf_concat mapped p hnd hpnd, positionProp]
        exact hinc
      | none =>
        simp only [remapStep, h1, h2, Option.some.injEq] at h
        subst h
        obtain ⟨p, hp, hinc⟩ := isRootPositionTrack_false_cases hb h1
        rw [hp, positionProp]
        exact hinc

theorem remapTracks_no_root_position :
    ∀ (ts out : List Track), remapTracks ts = some out →
      ∀ t ∈ out, boneOf t.name ∈ rootBoneNames →
        positionProp (propOf t.name) = false
  | [], out, h => by
    rw [remapTracks] at h
    cases h
    simp
  | t :: ts, out, h => by
    rw [remapTracks] at h
    cases hs : remapStep t with
    | none => rw [hs] at h; simp at h
    | some o =>
      cases o with
      | none =>
        rw [hs] at h
        exact remapTracks_no_root_position ts out h
      | some t' =>
        rw [hs] at h
        rcases Option.map_eq_some'.1 h with ⟨rest, hrest, hout⟩
        subst hout
        intro u hu hb
        rcases List.mem_cons.1 hu with hu | hu
        · subst hu
          exact remapStep_emit hs hb
        · exact remapTracks_no_root_position ts rest hrest u hu hb

/-- C3: for every input clip that `remapAnimationTracks` returns a clip
for, and every bone name in `rootBoneNames`, the output clip has no track
whose bone name is that root bone and whose property is a position
channel (a rotation track for the same bone may well survive; the theorem
does not care). -/
theorem remap_output_has_no_root_position_track
    (clip out : Clip) (h : remapAnimationTracks clip = some out)
    (t : Track) (ht : t ∈ out.tracks)
    (root : String) (hr : root ∈ rootBoneNames) :
    ¬(boneOf t.name = root ∧ positionProp (propOf t.name) = true) := by
  rintro ⟨hb, hpos⟩
  rw [remapAnimationTracks] at h
  rcases Option.map_eq_some'.1 h with ⟨ts, hts, hout⟩
  subst hout
  have := remapTracks_no_root_position clip.tracks ts hts t ht (hb ▸ hr)
  rw [this] at hpos
  cases hpos

/-- Witness for C3: a concrete clip holding a root position track, a
mapped rotation track and a root rotation track; the root position track
is gone from the output while the rotation tracks survive. -/
theorem remap_output_has_no_root_position_track_witness :
    ¬(boneOf "LeftArm.quaternion" = "Hips" ∧
      positionProp (propOf "LeftArm.quaternion") = true) :=
  remap_output_has_no_root_position_track
    ⟨"anim", 2, [⟨"mixamorigHips.position", [0], [1, 2, 3], 0, 1⟩,
                 ⟨"mixamorigLeftArm.quaternion", [0], [0, 0, 0, 1], 0, 0⟩,
                 ⟨"Hips.quaternion", [0], [0, 0, 0, 1], 0, 0⟩]⟩
    ⟨"anim", 2, [⟨"LeftArm.quaternion", [0], [0, 0, 0, 1], 0, 0⟩,
                 ⟨"Hips.quaternion", [0], [0, 0, 0, 1], 0, 0⟩]⟩
    (by decide)
    ⟨"LeftArm.quaternion", [0], [0, 0, 0, 1], 0, 0⟩
    (by decide) "Hips" (by decide)

/-- C4, the failing input: a track whose name is exactly a root bone name
with no `'.'` separator makes `remapAnimationTracks` raise a `TypeError`
(`property` is `undefined` and `property.includes("position")` is
evaluated), modelled here as `none`, rather than pass the track through. -/
theorem remap_raises_on_dotless_root_bone_name :
    remapAnimationTracks ⟨"anim", 1, [⟨"Hips", [0], [0, 0, 0], 0, 1⟩]⟩
      = none := by decide

/-- C9: the clip `remapAnimationTracks` returns keeps the input clip's
name and duration. -/
theorem remap_preserves_name_and_duration
    (clip out : Clip) (h : remapAnimationTracks clip = some out) :
    out.name = clip.name ∧ out.duration = clip.duration := by
  rw [remapAnimationTracks] at h
  rcases Option.map_eq_some'.1 h with ⟨ts, _, hout⟩
  subst hout
  exact ⟨rfl, rfl⟩

/-- Witness for C9 at a concrete two-track clip. -/
theorem remap_preserves_name_and_duration_witness :
    (Clip.mk "walk" (7)
        [⟨"Spine.quaternion", [0, 1], [0, 0, 0, 1], 0, 0⟩]).name
      = (Clip.mk "walk" (7)
        [⟨"mixamorigSpine.quaternion", [0, 1], [0, 0, 0, 1], 0, 0⟩]).name ∧
    (Clip.mk "walk" (7)
        [⟨"Spine.quaternion", [0, 1], [0, 0, 0, 1], 0, 0⟩]).duration
      = (Clip.mk "walk" (7)
        [⟨"mixamorigSpine.quaternion", [0, 1], [0, 0, 0, 1], 0, 0⟩]).duration :=
  remap_preserves_name_and_duration
    ⟨"walk", 7, [⟨"mixamorigSpine.quaternion", [0, 1], [0, 0, 0, 1], 0, 0⟩]⟩
    ⟨"walk", 7, [⟨"Spine.quaternion", [0, 1], [0, 0, 0, 1], 0, 0⟩]⟩
    (by decide)

/-! ## `ModelLoader` registry and cache (`loadModelById`, `setExcludedMeshes`) -/

/-- The `ModelAsset` descriptor of `src/utils/modelLoader.ts`. -/
structure ModelAsset where
  id : String
  url : String
  enabled : Bool
  description : Option String
  excludeMeshes : Option (List String)
deriving DecidableEq, Repr

/-- The static state of `ModelLoader`: the `modelRegistry` and
`loadedModels` maps.  `μ` is the type of a decoded model
(`{model, animations}`); the loader never inspects it, only stores it. -/
structure LoaderState (μ : Type) where
  registry : List (String × ModelAsset)
  cache : List (String × μ)
deriving DecidableEq, Repr

/-- What one call of `loadModelById` returns.  The code returns `null`
after logging two different warnings; the two constructors keep the two
early-return paths apart (`NotRegistered` = "not found in registry",
`Disabled` = "is disabled"). -/
inductive LoadResult (μ : Type) where
  | notRegistered
  | disabled
  | loaded (m : μ)
deriving DecidableEq, Repr

/-- `ModelLoader.registerModel`: upsert into the registry. -/
def registerModel {μ : Type} (st : LoaderState μ) (asset : ModelAsset) :
    LoaderState μ :=
  { st with registry := mapSet st.registry asset.id asset }

/-- `ModelLoader.setExcludedMeshes`: update the descriptor's
`excludeMeshes` when the id is registered, and delete the cached entry,
if any, so the next load re-applies the exclusions; an unregistered id
only logs a warning. -/
def setExcludedMeshes {μ : Type} (st : LoaderState μ) (modelId : String)
    (meshNames : List String) : LoaderState μ :=
  match mapGet st.registry modelId with
  | some asset =>
    { registry := mapSet st.registry modelId
        { asset with excludeMeshes := some meshNames },
      cache :=
        if (mapGet st.cache modelId).isSome then mapDel st.cache modelId
        else st.cache }
  | none => st

/-- `ModelLoader.loadModelById`.  `decode` stands for the awaited
`loadModel(url, onProgress, excludeMeshes)` collaborator (network fetch,
GLTF decode, mesh exclusion); the third component of the result counts
how many times it was invoked during the call. -/
def loadModelById {μ : Type} (decode : String → Option (List String) → μ)
    (st : LoaderState μ) (modelId : String) :
    LoadResult μ × LoaderState μ × ℕ :=
  match mapGet st.registry modelId with
  | none => (LoadResult.notRegistered, st, 0)
  | some asset =>
    if asset.enabled = false then (LoadResult.disabled, st, 0)
    else
      match mapGet st.cache modelId with
      | some cached => (LoadResult.loaded cached, st, 0)
      | none =>
        let result := decode asset.url asset.excludeMeshes
        (LoadResult.loaded result,
          { st with cache := mapSet st.cache modelId result }, 1)

theorem mapGet_mapSet_self {α : Type} :
    ∀ (m : List (String × α)) (k : String) (v : α),
      mapGet (mapSet m k v) k = some v
  | [], k, v => by simp [mapSet, mapGet]
  | (k', v') :: rest, k, v => by
    by_cases hk : k' = k
    · rw [mapSet, if_pos hk, mapGet, if_pos rfl]
    · rw [mapSet, if_neg hk, mapGet, if_neg hk]
      exact mapGet_mapSet_self rest k v

theorem mapGet_mapDel_self {α : Type} :
    ∀ (m : List (String × α)) (k : String), mapGet (mapDel m k) k = none
  | [], k => by simp [mapDel, mapGet]
  | (k', v') :: rest, k => by
    by_cases hk : k' = k
    · rw [mapDel, if_pos hk]
      exact mapGet_mapDel_self rest k
    · rw [mapDel, if_neg hk, mapGet, if_neg hk]
      exact mapGet_mapDel_self rest k

/-- C5: one call of `loadModelById` (i) fails with `NotRegistered`,
decoding nothing and changing nothing, when the id is not registered;
(ii) fails with `Disabled`, decoding nothing and changing nothing, when
the registered descriptor is disabled; (iii) returns the cached entry,
decoding nothing and changing nothing, when one exists; (iv) otherwise
performs exactly one decode, stores the result under the id and returns
it. -/
theorem loadModelById_spec {μ : Type}
    (decode : String → Option (List String) → μ)
    (st : LoaderState μ) (modelId : String) :
    (mapGet st.registry modelId = none →
       loadModelById decode st modelId = (LoadResult.notRegistered, st, 0)) ∧
    (∀ asset, mapGet st.registry modelId = some asset →
       asset.enabled = false →
       loadModelById decode st modelId = (LoadResult.disabled, st, 0)) ∧
    (∀ asset cached, mapGet st.registry modelId = some asset →
       asset.enabled = true → mapGet st.cache modelId = some cached →
       loadModelById decode st modelId = (LoadResult.loaded cached, st, 0)) ∧
    (∀ asset, mapGet st.registry modelId = some asset →
       asset.enabled = true → mapGet st.cache modelId = none →
       loadModelById decode st modelId =
         (LoadResult.loaded (decode asset.url asset.excludeMeshes),
          LoaderState.mk st.registry
            (mapSet st.cache modelId (decode asset.url asset.excludeMeshes)),
          1) ∧
       mapGet (loadModelById decode st modelId).2.1.cache modelId =
         some (decode asset.url asset.excludeMeshes)) := by
  refine ⟨fun h => ?_, fun asset h hd => ?_, fun asset cached h he hc => ?_,
    fun asset h he hc => ?_⟩
  · simp [loadModelById, h]
  · simp [loadModelById, h, hd]
  · simp [loadModelById, h, he, hc]
  · refine ⟨by simp [loadModelById, h, he, hc], ?_⟩
    simp only [loadModelById, h, he, hc, Bool.true_eq_false, if_false]
    exact mapGet_mapSet_self st.cache modelId _

/-- Witness for C5, exercising all four cases on concrete states: an
empty registry; the spec scenario of an id registered disabled (no decode
happens); a cached hit; and a first load that decodes once and stores. -/
theorem loadModelById_spec_witness :
    (loadModelById (fun _ _ => (7 : ℕ)) ⟨[], []⟩ "x"
       = (LoadResult.notRegistered, ⟨[], []⟩, 0)) ∧
    (loadModelById (fun _ _ => (7 : ℕ))
       ⟨[("x", ⟨"x", "/models/x.glb", false, none, none⟩)], []⟩ "x"
       = (LoadResult.disabled,
          ⟨[("x", ⟨"x", "/models/x.glb", false, none, none⟩)], []⟩, 0)) ∧
    (loadModelById (fun _ _ => (7 : ℕ))
       ⟨[("x", ⟨"x", "/models/x.glb", true, none, none⟩)], [("x", 5)]⟩ "x"
       = (LoadResult.loaded 5,
          ⟨[("x", ⟨"x", "/models/x.glb", true, none, none⟩)], [("x", 5)]⟩, 0)) ∧
    (loadModelById (fun _ _ => (7 : ℕ))
       ⟨[("x", ⟨"x", "/models/x.glb", true, none, none⟩)], []⟩ "x"
       = (LoadResult.loaded 7,
          ⟨[("x", ⟨"x", "/models/x.glb", true, none, none⟩)], [("x", 7)]⟩, 1)) :=
  ⟨(loadModelById_spec (fun _ _ => (7 : ℕ)) ⟨[], []⟩ "x").1 (by decide),
   (loadModelById_spec (fun _ _ => (7 : ℕ))
      ⟨[("x", ⟨"x", "/models/x.glb", false, none, none⟩)], []⟩ "x").2.1
     ⟨"x", "/models/x.glb", false, none, none⟩ (by decide) (by decide),
   (loadModelById_spec (fun _ _ => (7 : ℕ))
      ⟨[("x", ⟨"x", "/models/x.glb", true, none, none⟩)], [("x", 5)]⟩ "x").2.2.1
     ⟨"x", "/models/x.glb", true, none, none⟩ 5 (by decide) (by decide)
     (by decide),
   ((loadModelById_spec (fun _ _ => (7 : ℕ))
      ⟨[("x", ⟨"x", "/models/x.glb", true, none, none⟩)], []⟩ "x").2.2.2
     ⟨"x", "/models/x.glb", true, none, none⟩ (by decide) (by decide)
     (by decide)).1⟩

/-- C7: `setExcludedMeshes` on a registered id stores the new excluded
list in the descriptor and deletes the loaded-model cache entry for that
id when one exists; on an unregistered id it changes nothing. -/
theorem setExcludedMeshes_spec {μ : Type} (st : LoaderState μ)
    (modelId : String) (meshNames : List String) :
    (∀ asset, mapGet st.registry modelId = some asset →
       mapGet (setExcludedMeshes st modelId meshNames).registry modelId =
         some { asset with excludeMeshes := some meshNames } ∧
       mapGet (setExcludedMeshes st modelId meshNames).cache modelId = none ∧
       ((mapGet st.cache modelId).isSome = false →
         (setExcludedMeshes st modelId meshNames).cache = st.cache)) ∧
    (mapGet st.registry modelId = none →
       setExcludedMeshes st modelId meshNames = st) := by
  refine ⟨fun asset h => ?_, fun h => ?_⟩
  · simp only [setExcludedMeshes, h]
    refine ⟨mapGet_mapSet_self st.registry modelId _, ?_, ?_⟩
    · rcases ho : mapGet st.cache modelId with _ | v
      · simp [ho]
      · simp only [ho, Option.isSome_some, if_true]
        exact mapGet_mapDel_self st.cache modelId
    · intro hnone
      rcases ho : mapGet st.cache modelId with _ | v
      · simp [ho]
      · rw [ho] at hnone; cases hnone
  · simp only [setExcludedMeshes, h]

/-- Witness for C7: a registered id with a cached model; after
`setExcludedMeshes` the descriptor carries the new list and the cache
entry is gone. -/
theorem setExcludedMeshes_spec_witness :
    mapGet (setExcludedMeshes
        (⟨[("hc", ⟨"hc", "/models/elDA.glb", true, none, some []⟩)],
          [("hc", 3)]⟩ : LoaderState ℕ) "hc" ["Hat"]).registry "hc" =
      some ⟨"hc", "/models/elDA.glb", true, none, some ["Hat"]⟩ ∧
    mapGet (setExcludedMeshes
        (⟨[("hc", ⟨"hc", "/models/elDA.glb", true, none, some []⟩)],
          [("hc", 3)]⟩ : LoaderState ℕ) "hc" ["Hat"]).cache "hc" = none ∧
    ((mapGet (⟨[("hc", ⟨"hc", "/models/elDA.glb", true, none, some []⟩)],
          [("hc", 3)]⟩ : LoaderState ℕ).cache "hc").isSome = false →
      (setExcludedMeshes
        (⟨[("hc", ⟨"hc", "/models/elDA.glb", true, none, some []⟩)],
          [("hc", 3)]⟩ : LoaderState ℕ) "hc" ["Hat"]).cache =
        (⟨[("hc", ⟨"hc", "/models/elDA.glb", true, none, some []⟩)],
          [("hc", 3)]⟩ : LoaderState ℕ).cache) :=
  (setExcludedMeshes_spec
      (⟨[("hc", ⟨"hc", "/models/elDA.glb", true, none, some []⟩)],
        [("hc", 3)]⟩ : LoaderState ℕ) "hc" ["Hat"]).1
    ⟨"hc", "/models/elDA.glb", true, none, some []⟩ (by decide)

/-! ## Input state and the movement state machine -/

/-- The `controls.keys` record of `InputControls`
(`src/utils/controls.ts`). -/
structure Keys where
  forward : Bool
  backward : Bool
  left : Bool
  right : Bool
  jump : Bool
  crouch : Bool
  run : Bool
  walk : Bool
deriving DecidableEq, Repr

/-- `Character.updateMovementState`'s `isAnyMovementKeyPressed`
(`src/components/Character.ts` lines 267-271): forward, backward, left
or right held. -/
def Keys.anyMovement (k : Keys) : Bool :=
  k.forward || k.backward || k.left || k.right

/-- `HumanCharacter.isAnyMovementKeyPressed()`
(`src/components/HumanCharacter.ts` lines 362-370): unlike the
`Character` predicate it also counts the jump key. -/
def Keys.humanAnyMovement (k : Keys) : Bool :=
  k.forward || k.backward || k.left || k.right || k.jump

/-- The union of the `movementState` string literals of `Character`
(`"run" | "normal" | "walk" | "idle" | "jump" | "crouch"`) and
`HumanCharacter` (which adds `"jumpRun"` and drops `"crouch"`). -/
inductive MoveState where
  | idle
  | walk
  | normal
  | run
  | crouch
  | jump
  | jumpRun
deriving DecidableEq, Repr

/-- `Character` speeds: `walkSpeed = 2.5`. -/
def charWalkSpeed : ℚ := 5 / 2

/-- `Character` speeds: `moveSpeed = 7.5`. -/
def charMoveSpeed : ℚ := 15 / 2

/-- `Character` speeds: `runSpeed = 15`. -/
def charRunSpeed : ℚ := 15

/-- `Character.speedChangeRate = 20`. -/
def charSpeedChangeRate : ℚ := 20

/-- `HumanCharacter` speeds: `walkSpeed = 2`. -/
def humanWalkSpeed : ℚ := 2

/-- `HumanCharacter` speeds: `moveSpeed = 5`. -/
def humanMoveSpeed : ℚ := 5

/-- `HumanCharacter` speeds: `runSpeed = 8`. -/
def humanRunSpeed : ℚ := 8

/-- `HumanCharacter.speedChangeRate = 5`. -/
def humanSpeedChangeRate : ℚ := 5

/-- The fields of `Character` that `updateMovementState` reads or
writes. -/
structure CharSM where
  movementState : MoveState
  targetSpeed : ℚ
  isOnGround : Bool
deriving DecidableEq, Repr

/-- `Character.updateMovementState`: the if/else-if chain of
`src/components/Character.ts` lines 265-295 (the UI update at the end
touches the DOM only). -/
def charUpdateMovementState (keys : Keys) (st : CharSM) : CharSM :=
  let any := keys.anyMovement
  if !any && st.isOnGround then
    { st with movementState := MoveState.idle, targetSpeed := 0 }
  else if keys.jump && !st.isOnGround then
    { st with movementState := MoveState.jump }
  else if keys.crouch then
    { st with movementState := MoveState.crouch,
              targetSpeed := charWalkSpeed * (1 / 2) }
  else if keys.run && any then
    { st with movementState := MoveState.run, targetSpeed := charRunSpeed }
  else if keys.walk && any then
    { st with movementState := MoveState.walk, targetSpeed := charWalkSpeed }
  else if any then
    { st with movementState := MoveState.normal, targetSpeed := charMoveSpeed }
  else st

/-- The fields of `HumanCharacter` that `updateMovementState` reads or
writes. -/
structure HumanSM where
  movementState : MoveState
  targetSpeed : ℚ
  isOnGround : Bool
  isJumping : Bool
  wasRunningBeforeJump : Bool
deriving DecidableEq, Repr

/-- `HumanCharacter.updateMovementState`
(`src/components/HumanCharacter.ts` lines 387-421): returns unchanged
while `isJumping`; otherwise tracks `wasRunningBeforeJump` and resolves
the state chain on `isAnyMovementKeyPressed()` — the jump-inclusive
predicate (its idle branch does not test `isOnGround`).  The trailing
`updateAnimation()` call only drives the mixer. -/
def humanUpdateMovementState (keys : Keys) (st : HumanSM) : HumanSM :=
  if st.isJumping then st
  else
    let any := keys.humanAnyMovement
    let st :=
      if st.movementState = MoveState.run ∧ keys.jump ∧ st.isOnGround then
        { st with wasRunningBeforeJump := true }
      else if st.isOnGround then { st with wasRunningBeforeJump := false }
      else st
    if !any then
      { st with movementState := MoveState.idle, targetSpeed := 0 }
    else if keys.run && any then
      { st with movementState := MoveState.run, targetSpeed := humanRunSpeed }
    else if keys.walk && any then
      { st with movementState := MoveState.walk, targetSpeed := humanWalkSpeed }
    else if any then
      { st with movementState := MoveState.normal,
                targetSpeed := humanMoveSpeed }
    else st

/-- C2 (amended): with no directional key held and the character
grounded, one evaluation of the movement-state transition resolves
`idle` with `targetSpeed = 0` — unconditionally for `Character`, and for
`HumanCharacter` provided its `isJumping` flag is clear and the jump key
is not held (its transition function returns without touching anything
while `isJumping`, and its `isAnyMovementKeyPressed()` also counts the
jump key, so a held jump key suppresses the idle branch). -/
theorem updateMovementState_idle_no_direction (keys : Keys)
    (cst : CharSM) (hst : HumanSM)
    (hf : keys.forward = false) (hb : keys.backward = false)
    (hl : keys.left = false) (hr : keys.right = false)
    (hcg : cst.isOnGround = true) (hhj : hst.isJumping = false) :
    (charUpdateMovementState keys cst).movementState = MoveState.idle ∧
    (charUpdateMovementState keys cst).targetSpeed = 0 ∧
    (keys.jump = false →
      (humanUpdateMovementState keys hst).movementState = MoveState.idle ∧
      (humanUpdateMovementState keys hst).targetSpeed = 0) := by
  have hany : keys.anyMovement = false := by
    rw [Keys.anyMovement, hf, hb, hl, hr]
    rfl
  refine ⟨?_, ?_, fun hj => ?_⟩
  · simp [charUpdateMovementState, hany, hcg]
  · simp [charUpdateMovementState, hany, hcg]
  · have hhany : keys.humanAnyMovement = false := by
      rw [Keys.humanAnyMovement, hf, hb, hl, hr, hj]
      rfl
    constructor <;> simp [humanUpdateMovementState, hhany, hhj]

/-- Witness for C2's amended statement: no key held, both characters
grounded mid-`normal` state with a nonzero target speed, `isJumping`
clear. -/
theorem updateMovementState_idle_no_direction_witness :
    (charUpdateMovementState
        ⟨false, false, false, false, false, false, false, false⟩
        ⟨MoveState.normal, 15, true⟩).movementState = MoveState.idle ∧
    (charUpdateMovementState
        ⟨false, false, false, false, false, false, false, false⟩
        ⟨MoveState.normal, 15, true⟩).targetSpeed = 0 ∧
    ((Keys.mk false false false false false false false false).jump = false →
      (humanUpdateMovementState
          ⟨false, false, false, false, false, false, false, false⟩
          ⟨MoveState.normal, 8, true, false, false⟩).movementState
        = MoveState.idle ∧
      (humanUpdateMovementState
          ⟨false, false, false, false, false, false, false, false⟩
          ⟨MoveState.normal, 8, true, false, false⟩).targetSpeed = 0) :=
  updateMovementState_idle_no_direction
    ⟨false, false, false, false, false, false, false, false⟩
    ⟨MoveState.normal, 15, true⟩ ⟨MoveState.normal, 8, true, false, false⟩
    rfl rfl rfl rfl rfl rfl

/-- C2, counterexample to the claim as stated, in two `HumanCharacter`
instances.  First: grounded, no directional key held, but `isJumping`
still set (the jump clip has not finished) — `updateMovementState`
returns without resolving `idle` or zeroing `targetSpeed`.  Second:
grounded, `isJumping` clear, no directional key held, but the jump key
held — `isAnyMovementKeyPressed()` counts jump, so the idle branch is
skipped and the final branch resolves `normal` with
`targetSpeed = moveSpeed = 5` instead of `idle`/`0`. -/
theorem humanUpdateMovementState_not_idle_cases :
    ((humanUpdateMovementState
        ⟨false, false, false, false, false, false, false, false⟩
        ⟨MoveState.jump, 8, true, true, false⟩).movementState
      ≠ MoveState.idle ∧
     (humanUpdateMovementState
        ⟨false, false, false, false, false, false, false, false⟩
        ⟨MoveState.jump, 8, true, true, false⟩).targetSpeed ≠ 0) ∧
    ((humanUpdateMovementState
        ⟨false, false, false, false, true, false, false, false⟩
        ⟨MoveState.idle, 0, true, false, false⟩).movementState
      = MoveState.normal ∧
     (humanUpdateMovementState
        ⟨false, false, false, false, true, false, false, false⟩
        ⟨MoveState.idle, 0, true, false, false⟩).targetSpeed
      = humanMoveSpeed ∧
     (humanUpdateMovementState
        ⟨false, false, false, false, true, false, false, false⟩
        ⟨MoveState.idle, 0, true, false, false⟩).movementState
      ≠ MoveState.idle ∧
     (humanUpdateMovementState
        ⟨false, false, false, false, true, false, false, false⟩
        ⟨MoveState.idle, 0, true, false, false⟩).targetSpeed ≠ 0) := by
  decide

/-! ## Speed smoothing (`handleMovement` step b) -/

/-- `THREE.MathUtils.lerp(x, y, t) = x + (y - x) * t`. -/
def mathLerp {K : Type} [LinearOrderedField K] (x y t : K) : K :=
  x + (y - x) * t

/-- One per-frame update of `currentSpeed`:
`lerp(currentSpeed, targetSpeed, min(1, speedChangeRate * dt))`
(`Character.handleMovement` lines 308-314, `HumanCharacter` lines
493-498). -/
def speedStep {K : Type} [LinearOrderedField K]
    (rate target dt cur : K) : K :=
  mathLerp cur target (min 1 (rate * dt))

/-- The `currentSpeed` trajectory from `s0` under a sequence of frame
times. -/
def speedSeq {K : Type} [LinearOrderedField K]
    (rate target s0 : K) (dts : ℕ → K) : ℕ → K
  | 0 => s0
  | n + 1 => speedStep rate target (dts n) (speedSeq rate target s0 dts n)

theorem speedStep_gap {K : Type} [LinearOrderedField K]
    (rate target dt cur : K) :
    target - speedStep rate target dt cur
      = (target - cur) * (1 - min 1 (rate * dt)) := by
  rw [speedStep, mathLerp]
  ring

theorem speedStep_factor_bounds {K : Type} [LinearOrderedField K]
    {rate dt : K} (hrate : 0 < rate) (hdt : 0 < dt) :
    0 ≤ 1 - min 1 (rate * dt) ∧ 1 - min 1 (rate * dt) ≤ 1 := by
  constructor
  · have := min_le_left (1 : K) (rate * dt)
    linarith
  · have : (0 : K) < min 1 (rate * dt) :=
      lt_min one_pos (mul_pos hrate hdt)
    linarith

/-- C6: for a fixed target speed, a positive rate and any sequence of
strictly positive frame times, the smoothed `currentSpeed` sequence moves
toward the target monotonically (the gap `|target - current|` never
grows) and never passes the target from either side. -/
theorem speedSeq_monotone_never_overshoots (rate target s0 : ℚ)
    (dts : ℕ → ℚ) (hrate : 0 < rate) (hdts : ∀ n, 0 < dts n) :
    (∀ n, |target - speedSeq rate target s0 dts (n + 1)|
        ≤ |target - speedSeq rate target s0 dts n|) ∧
    (s0 ≤ target → ∀ n, speedSeq rate target s0 dts n ≤ target) ∧
    (target ≤ s0 → ∀ n, target ≤ speedSeq rate target s0 dts n) := by
  refine ⟨fun n => ?_, fun hs n => ?_, fun hs n => ?_⟩
  · obtain ⟨hf0, hf1⟩ := speedStep_factor_bounds hrate (hdts n)
    rw [show speedSeq rate target s0 dts (n + 1)
        = speedStep rate target (dts n) (speedSeq rate target s0 dts n)
      from rfl]
    rw [speedStep_gap, abs_mul]
    calc |target - speedSeq rate target s0 dts n|
          * |1 - min 1 (rate * dts n)|
        = |target - speedSeq rate target s0 dts n|
          * (1 - min 1 (rate * dts n)) := by rw [abs_of_nonneg hf0]
      _ ≤ |target - speedSeq rate target s0 dts n| * 1 := by
          exact mul_le_mul_of_nonneg_left hf1 (abs_nonneg _)
      _ = |target - speedSeq rate target s0 dts n| := mul_one _
  · induction n with
    | zero => exact hs
    | succ n ih =>
      obtain ⟨hf0, _⟩ := speedStep_factor_bounds hrate (hdts n)
      have hgap := speedStep_gap rate target (dts n)
        (speedSeq rate target s0 dts n)
      have : 0 ≤ target - speedSeq rate target s0 dts (n + 1) := by
        rw [show speedSeq rate target s0 dts (n + 1)
            = speedStep rate target (dts n) (speedSeq rate target s0 dts n)
          from rfl, hgap]
        exact mul_nonneg (by linarith) hf0
      linarith
  · induction n with
    | zero => exact hs
    | succ n ih =>
      obtain ⟨hf0, _⟩ := speedStep_factor_bounds hrate (hdts n)
      have hgap := speedStep_gap rate target (dts n)
        (speedSeq rate target s0 dts n)
      have : target - speedSeq rate target s0 dts (n + 1) ≤ 0 := by
        rw [show speedSeq rate target s0 dts (n + 1)
            = speedStep rate target (dts n) (speedSeq rate target s0 dts n)
          from rfl, hgap]
        exact mul_nonpos_of_nonpos_of_nonneg (by linarith) hf0
      linarith

/-- Witness for C6 at the `Character` rate (`speedChangeRate = 20`),
target 0, start 5, constant frame time 1. -/
theorem speedSeq_monotone_never_overshoots_witness :
    (∀ n, |(0 : ℚ) - speedSeq charSpeedChangeRate 0 5 (fun _ => 1) (n + 1)|
        ≤ |(0 : ℚ) - speedSeq charSpeedChangeRate 0 5 (fun _ => 1) n|) ∧
    ((5 : ℚ) ≤ 0 →
      ∀ n, speedSeq charSpeedChangeRate 0 5 (fun _ => 1) n ≤ 0) ∧
    ((0 : ℚ) ≤ 5 →
      ∀ n, (0 : ℚ) ≤ speedSeq charSpeedChangeRate 0 5 (fun _ => 1) n) :=
  speedSeq_monotone_never_overshoots charSpeedChangeRate 0 5 (fun _ => 1)
    (by decide) (fun _ => zero_lt_one)

/-! ## Wrapped-angle interpolation (`Character.lerpAngle`) -/

/-- JS truncation toward zero, as `%` applies to `dividend / divisor`. -/
noncomputable def jsTrunc (q : ℝ) : ℤ :=
  if 0 ≤ q then ⌊q⌋ else ⌈q⌉

/-- The JS remainder `x % y`: `x - y * trunc(x / y)`, carrying the sign
of the dividend. -/
noncomputable def jsRem (x y : ℝ) : ℝ :=
  x - y * jsTrunc (x / y)

/-- The signed delta of `Character.lerpAngle`:
`((b - a + Math.PI) % (Math.PI * 2)) - Math.PI`. -/
noncomputable def lerpAngleDelta (a b : ℝ) : ℝ :=
  jsRem (b - a + Real.pi) (Real.pi * 2) - Real.pi

/-- `Character.lerpAngle(a, b, t) = a + diff * Math.min(1, t)`. -/
noncomputable def lerpAngle (a b t : ℝ) : ℝ :=
  a + lerpAngleDelta a b * min 1 t

/-- C1 (amended): whenever `b - a + π ≥ 0` — so that the JS remainder is
the true mod into `[0, 2π)` — the signed delta of `lerpAngle` lies in
`[-π, π)`: a shortest-path delta, with `-π` (not `π`) chosen on the
boundary. -/
theorem lerpAngleDelta_mem_Ico (a b : ℝ) (h : 0 ≤ b - a + Real.pi) :
    lerpAngleDelta a b ∈ Set.Ico (-Real.pi) Real.pi := by
  have h2 : (0 : ℝ) < Real.pi * 2 := by positivity
  have hq : 0 ≤ (b - a + Real.pi) / (Real.pi * 2) := div_nonneg h h2.le
  have hrem : jsRem (b - a + Real.pi) (Real.pi * 2)
      = Real.pi * 2 * Int.fract ((b - a + Real.pi) / (Real.pi * 2)) := by
    rw [jsRem, jsTrunc, if_pos hq, Int.fract]
    field_simp
  constructor
  · rw [lerpAngleDelta, hrem]
    have := mul_nonneg h2.le (Int.fract_nonneg ((b - a + Real.pi) / (Real.pi * 2)))
    linarith
  · rw [lerpAngleDelta, hrem]
    have := (mul_lt_mul_of_pos_left
      (Int.fract_lt_one ((b - a + Real.pi) / (Real.pi * 2))) h2)
    linarith [this]

/-- Witness for C1's amended statement at `a = b = 0`: the delta is `0`,
inside `[-π, π)`. -/
theorem lerpAngleDelta_mem_Ico_witness :
    0 ≤ (0 : ℝ) - 0 + Real.pi ∧
    lerpAngleDelta 0 0 ∈ Set.Ico (-Real.pi) Real.pi :=
  ⟨by simpa using Real.pi_nonneg,
   lerpAngleDelta_mem_Ico 0 0 (by simpa using Real.pi_nonneg)⟩

/-- C1, counterexample to the claim as stated: at `a = π, b = 0` the
delta is exactly `-π`, which is outside `(-π, π]`; and at
`a = 0, b = -3π/2` the dividend `b - a + π` is negative, the JS remainder
keeps its sign, and the delta is `-3π/2` — outside `(-π, π]` and of
magnitude greater than `π`, i.e. not the shorter path (`+π/2` is). -/
theorem lerpAngleDelta_not_in_Ioc :
    lerpAngleDelta Real.pi 0 = -Real.pi ∧
    lerpAngleDelta Real.pi 0 ∉ Set.Ioc (-Real.pi) Real.pi ∧
    lerpAngleDelta 0 (-(3 * Real.pi / 2)) = -(3 * Real.pi / 2) ∧
    lerpAngleDelta 0 (-(3 * Real.pi / 2)) ∉ Set.Ioc (-Real.pi) Real.pi := by
  have hpi := Real.pi_pos
  have e1 : lerpAngleDelta Real.pi 0 = -Real.pi := by
    have hx : (0 : ℝ) - Real.pi + Real.pi = 0 := by ring
    rw [lerpAngleDelta, hx, jsRem, zero_div, jsTrunc, if_pos le_rfl,
      Int.floor_zero]
    push_cast
    ring
  have e2 : lerpAngleDelta 0 (-(3 * Real.pi / 2)) = -(3 * Real.pi / 2) := by
    have hx : -(3 * Real.pi / 2) - 0 + Real.pi = -(Real.pi / 2) := by ring
    have hq : (-(Real.pi / 2)) / (Real.pi * 2) = -(1 / 4) := by
      rw [div_eq_iff (by positivity : (Real.pi * 2) ≠ 0)]
      ring
    have hneg : ¬(0 : ℝ) ≤ -(1 / 4) := by norm_num
    have hceil : ⌈(-(1 / 4) : ℝ)⌉ = 0 := by
      rw [Int.ceil_eq_zero_iff]
      constructor <;> norm_num
    rw [lerpAngleDelta, hx, jsRem, hq, jsTrunc, if_neg hneg, hceil]
    push_cast
    ring
  refine ⟨e1, ?_, e2, ?_⟩
  · rw [e1, Set.mem_Ioc]
    rintro ⟨h1, _⟩
    exact lt_irrefl _ h1
  · rw [e2, Set.mem_Ioc]
    rintro ⟨h1, _⟩
    linarith

/-! ## Vectors and the camera-relative movement transform -/

/-- `THREE.Vector3`, restricted to the fields the movement code uses. -/
@[ext]
structure Vec3 where
  x : ℝ
  y : ℝ
  z : ℝ

/-- `Vector3.lengthSq()`. -/
def vlengthSq (v : Vec3) : ℝ :=
  v.x * v.x + v.y * v.y + v.z * v.z

/-- `Vector3.normalize()`: divide each component by the length
(`√lengthSq`); every caller in the movement code guards it with
`lengthSq() > 0`. -/
noncomputable def vnormalize (v : Vec3) : Vec3 :=
  ⟨v.x / Real.sqrt (vlengthSq v), v.y / Real.sqrt (vlengthSq v),
   v.z / Real.sqrt (vlengthSq v)⟩

/-- `applyMatrix4(makeRotationY θ)` on a `Vector3`:
`x' = cos θ · x + sin θ · z`, `z' = -sin θ · x + cos θ · z`. -/
noncomputable def applyRotY (theta : ℝ) (v : Vec3) : Vec3 :=
  ⟨Real.cos theta * v.x + Real.sin theta * v.z, v.y,
   -Real.sin theta * v.x + Real.cos theta * v.z⟩

/-- JS `Math.atan2(y, x)`. -/
noncomputable def atan2 (y x : ℝ) : ℝ :=
  if 0 < x then Real.arctan (y / x)
  else if x < 0 then
    if 0 ≤ y then Real.arctan (y / x) + Real.pi
    else Real.arctan (y / x) - Real.pi
  else
    if 0 < y then Real.pi / 2
    else if y < 0 then -(Real.pi / 2)
    else 0

/-- The movement-direction build-up of `handleMovement`: starting from
`(0,0,0)` and `isMoving = false`, each held directional key overwrites
one component and marks the character moving (forward `z := -1`,
backward `z := 1`, left `x := -1`, right `x := 1`, in that order). -/
def buildMovementDirection (k : Keys) : Vec3 × Bool :=
  let d : Vec3 := ⟨0, 0, 0⟩
  let p := if k.forward then ({ d with z := -1 }, true) else (d, false)
  let p := if k.backward then ({ p.1 with z := 1 }, true) else p
  let p := if k.left then ({ p.1 with x := -1 }, true) else p
  if k.right then ({ p.1 with x := 1 }, true) else p

/-- The camera-relative transform applied to the raw direction inside the
`isMoving` branch of `handleMovement`: normalize when non-zero, then
rotate by the camera's horizontal rotation
(`Character.transformMovementByCamera`,
`HumanCharacter.updateCharacterRotation(true)`). -/
noncomputable def cameraRelativeDirection (k : Keys) (cameraRotation : ℝ) :
    Vec3 :=
  let d := (buildMovementDirection k).1
  let d := if vlengthSq d > 0 then vnormalize d else d
  applyRotY cameraRotation d

/-- C8: with only `forward` held, the camera-relative movement direction
is world `(0, 0, -1)` for camera yaw `0` and world `(0, 0, +1)` for
camera yaw `π`. -/
theorem forward_direction_camera_relative :
    cameraRelativeDirection
        ⟨true, false, false, false, false, false, false, false⟩ 0
      = ⟨0, 0, -1⟩ ∧
    cameraRelativeDirection
        ⟨true, false, false, false, false, false, false, false⟩ Real.pi
      = ⟨0, 0, 1⟩ := by
  have hb : (buildMovementDirection
      ⟨true, false, false, false, false, false, false, false⟩).1
      = ⟨0, 0, -1⟩ := rfl
  have hlen : vlengthSq ⟨0, 0, -1⟩ = 1 := by
    rw [vlengthSq]
    norm_num
  have hnorm : vnormalize ⟨0, 0, -1⟩ = ⟨0, 0, -1⟩ := by
    rw [vnormalize, hlen, Real.sqrt_one]
    ext <;> norm_num
  constructor
  · rw [cameraRelativeDirection, hb, if_pos (by rw [hlen]; norm_num), hnorm,
      applyRotY]
    ext <;> simp
  · rw [cameraRelativeDirection, hb, if_pos (by rw [hlen]; norm_num), hnorm,
      applyRotY]
    ext <;> simp [Real.sin_pi, Real.cos_pi]

/-! ## `handleMovement` (horizontal velocity and position) -/

/-- The fields of `Character` that `handleMovement` and
`transformMovementByCamera` read or write (`mesh.rotation.y` is `rotY`,
`upperBody.rotation.y` is `upperBodyRotY`, `lowerBody.rotation.y` is
`lowerBodyRotY`). -/
structure CharState where
  currentSpeed : ℝ
  targetSpeed : ℝ
  velocity : Vec3
  isMoving : Bool
  movementDirection : Vec3
  position : Vec3
  rotY : ℝ
  upperBodyRotY : ℝ
  lowerBodyRotY : ℝ
  cameraRotation : ℝ

/-- `Character.handleMovement` (`src/components/Character.ts` lines
308-366): smooth the speed with `speedStep` at `speedChangeRate = 20`,
reset horizontal velocity, rebuild the movement direction from the keys,
and — when moving — normalize, rotate by the camera, snap the facing to
the movement angle and scale the direction by `currentSpeed`; finally
integrate the position and reset the lower-body twist. -/
noncomputable def charHandleMovement (keys : Keys) (dt : ℝ)
    (st : CharState) : CharState :=
  let currentSpeed := speedStep (20 : ℝ) st.targetSpeed dt st.currentSpeed
  let p := buildMovementDirection keys
  if p.2 then
    let d := cameraRelativeDirection keys st.cameraRotation
    let rotPair :=
      if vlengthSq d > 0 then (atan2 d.x (-d.z), (0 : ℝ))
      else (st.rotY, st.upperBodyRotY)
    let vel : Vec3 := ⟨d.x * currentSpeed, st.velocity.y, d.z * currentSpeed⟩
    { currentSpeed := currentSpeed, targetSpeed := st.targetSpeed,
      velocity := vel, isMoving := true, movementDirection := d,
      position := ⟨st.position.x + vel.x * dt, st.position.y,
        st.position.z + vel.z * dt⟩,
      rotY := rotPair.1, upperBodyRotY := rotPair.2, lowerBodyRotY := 0,
      cameraRotation := st.cameraRotation }
  else
    let vel : Vec3 := ⟨0, st.velocity.y, 0⟩
    { currentSpeed := currentSpeed, targetSpeed := st.targetSpeed,
      velocity := vel, isMoving := false, movementDirection := ⟨0, 0, 0⟩,
      position := ⟨st.position.x + vel.x * dt, st.position.y,
        st.position.z + vel.z * dt⟩,
      rotY := st.rotY, upperBodyRotY := st.upperBodyRotY, lowerBodyRotY := 0,
      cameraRotation := st.cameraRotation }

/-- The fields of `HumanCharacter` that `handleMovement` and
`updateCharacterRotation` read or write. -/
structure HumanMoveState where
  currentSpeed : ℝ
  targetSpeed : ℝ
  velocity : Vec3
  isMoving : Bool
  movementDirection : Vec3
  position : Vec3
  rotY : ℝ
  cameraRotation : ℝ

/-- The facing update of `HumanCharacter.updateCharacterRotation(true)`
for a transformed direction `d`: wrap the current and target angles into
`[0, 2π)`, take the wrapped difference into `(-π, π]`-ish bounds, and
advance the facing by `rotationSpeed * 0.02` of it
(`rotationSpeed = 5`). -/
noncomputable def humanFacingUpdate (rotY : ℝ) (d : Vec3) : ℝ :=
  let targetRotation := atan2 (-d.x) (-d.z)
  let currentAngle := jsRem rotY (Real.pi * 2)
  let currentAngle :=
    if currentAngle < 0 then currentAngle + Real.pi * 2 else currentAngle
  let targetAngle := jsRem targetRotation (Real.pi * 2)
  let targetAngle :=
    if targetAngle < 0 then targetAngle + Real.pi * 2 else targetAngle
  let angleDiff := targetAngle - currentAngle
  let angleDiff :=
    if angleDiff > Real.pi then angleDiff - Real.pi * 2 else angleDiff
  let angleDiff :=
    if angleDiff < -Real.pi then angleDiff + Real.pi * 2 else angleDiff
  currentAngle + angleDiff * 5 * 0.02

/-- `HumanCharacter.handleMovement` (`src/components/HumanCharacter.ts`
lines 492-552): like the `Character` version with `speedChangeRate = 5`,
except that the facing turns smoothly via `humanFacingUpdate` and that a
movement stop with `wasMoving` set calls `updateCharacterRotation(false)`,
whose body is entirely commented out (a no-op). -/
noncomputable def humanHandleMovement (keys : Keys) (dt : ℝ)
    (st : HumanMoveState) : HumanMoveState :=
  let currentSpeed := speedStep (5 : ℝ) st.targetSpeed dt st.currentSpeed
  let p := buildMovementDirection keys
  if p.2 then
    let d := cameraRelativeDirection keys st.cameraRotation
    let rotY :=
      if vlengthSq d > 0 then humanFacingUpdate st.rotY d else st.rotY
    let vel : Vec3 := ⟨d.x * currentSpeed, st.velocity.y, d.z * currentSpeed⟩
    { currentSpeed := currentSpeed, targetSpeed := st.targetSpeed,
      velocity := vel, isMoving := true, movementDirection := d,
      position := ⟨st.position.x + vel.x * dt, st.position.y,
        st.position.z + vel.z * dt⟩,
      rotY := rotY, cameraRotation := st.cameraRotation }
  else
    let vel : Vec3 := ⟨0, st.velocity.y, 0⟩
    { currentSpeed := currentSpeed, targetSpeed := st.targetSpeed,
      velocity := vel, isMoving := false, movementDirection := ⟨0, 0, 0⟩,
      position := ⟨st.position.x + vel.x * dt, st.position.y,
        st.position.z + vel.z * dt⟩,
      rotY := st.rotY, cameraRotation := st.cameraRotation }

/-- C10: one `handleMovement` call with no directional key held zeroes
the horizontal velocity and leaves `position.x`/`position.z` unchanged,
in both character variants, whatever `currentSpeed` still is (the
smoothed speed keeps decaying but is never applied while no key is
held). -/
theorem handleMovement_no_keys_stops_horizontally (keys : Keys) (dt : ℝ)
    (cst : CharState) (hst : HumanMoveState)
    (hf : keys.forward = false) (hb : keys.backward = false)
    (hl : keys.left = false) (hr : keys.right = false) :
    (charHandleMovement keys dt cst).velocity.x = 0 ∧
    (charHandleMovement keys dt cst).velocity.z = 0 ∧
    (charHandleMovement keys dt cst).position.x = cst.position.x ∧
    (charHandleMovement keys dt cst).position.z = cst.position.z ∧
    (humanHandleMovement keys dt hst).velocity.x = 0 ∧
    (humanHandleMovement keys dt hst).velocity.z = 0 ∧
    (humanHandleMovement keys dt hst).position.x = hst.position.x ∧
    (humanHandleMovement keys dt hst).position.z = hst.position.z := by
  have hbm : buildMovementDirection keys = (⟨0, 0, 0⟩, false) := by
    rw [buildMovementDirection, hf, hb, hl, hr]
    simp
  refine ⟨?_, ?_, ?_, ?_, ?_, ?_, ?_, ?_⟩ <;>
    simp [charHandleMovement, humanHandleMovement, hbm]

/-- Witness for C10: no key held, both variants mid-deceleration with
`currentSpeed = 5` and away from the origin; the horizontal velocity is
zero and the horizontal position does not move. -/
theorem handleMovement_no_keys_stops_horizontally_witness :
    (charHandleMovement
        ⟨false, false, false, false, false, false, false, false⟩ (1 / 60)
        ⟨5, 0, ⟨3, -2, 4⟩, true, ⟨0, 0, 1⟩, ⟨1, 0, 2⟩, 0, 0, 0, 0⟩).velocity.x
      = 0 ∧
    (charHandleMovement
        ⟨false, false, false, false, false, false, false, false⟩ (1 / 60)
        ⟨5, 0, ⟨3, -2, 4⟩, true, ⟨0, 0, 1⟩, ⟨1, 0, 2⟩, 0, 0, 0, 0⟩).velocity.z
      = 0 ∧
    (charHandleMovement
        ⟨false, false, false, false, false, false, false, false⟩ (1 / 60)
        ⟨5, 0, ⟨3, -2, 4⟩, true, ⟨0, 0, 1⟩, ⟨1, 0, 2⟩, 0, 0, 0, 0⟩).position.x
      = (Vec3.mk 1 0 2).x ∧
    (charHandleMovement
        ⟨false, false, false, false, false, false, false, false⟩ (1 / 60)
        ⟨5, 0, ⟨3, -2, 4⟩, true, ⟨0, 0, 1⟩, ⟨1, 0, 2⟩, 0, 0, 0, 0⟩).position.z
      = (Vec3.mk 1 0 2).z ∧
    (humanHandleMovement
        ⟨false, false, false, false, false, false, false, false⟩ (1 / 60)
        ⟨5, 0, ⟨3, -2, 4⟩, true, ⟨0, 0, 1⟩, ⟨1, 0, 2⟩, 0, 0⟩).velocity.x
      = 0 ∧
    (humanHandleMovement
        ⟨false, false, false, false, false, false, false, false⟩ (1 / 60)
        ⟨5, 0, ⟨3, -2, 4⟩, true, ⟨0, 0, 1⟩, ⟨1, 0, 2⟩, 0, 0⟩).velocity.z
      = 0 ∧
    (humanHandleMovement
        ⟨false, false, false, false, false, false, false, false⟩ (1 / 60)
        ⟨5, 0, ⟨3, -2, 4⟩, true, ⟨0, 0, 1⟩, ⟨1, 0, 2⟩, 0, 0⟩).position.x
      = (Vec3.mk 1 0 2).x ∧
    (humanHandleMovement
        ⟨false, false, false, false, false, false, false, false⟩ (1 / 60)
        ⟨5, 0, ⟨3, -2, 4⟩, true, ⟨0, 0, 1⟩, ⟨1, 0, 2⟩, 0, 0⟩).position.z
      = (Vec3.mk 1 0 2).z :=
  handleMovement_no_keys_stops_horizontally
    ⟨false, false, false, false, false, false, false, false⟩ (1 / 60)
    ⟨5, 0, ⟨3, -2, 4⟩, true, ⟨0, 0, 1⟩, ⟨1, 0, 2⟩, 0, 0, 0, 0⟩
    ⟨5, 0, ⟨3, -2, 4⟩, true, ⟨0, 0, 1⟩, ⟨1, 0, 2⟩, 0, 0⟩
    rfl rfl rfl rfl

end Venegame
